import Mathlib

/-!
Verification of the circomspect analyzer sources: the comment-stripping
preprocessor (`parser/src/parser_logic.rs`), the side-effect analysis
orchestrator (`program_analysis/src/side_effect_analysis.rs`) and the SARIF
conversion (`program_structure/src/utils/sarif_conversion.rs`).

Rust strings are modelled as lists of unicode scalar values (`List Char`,
matching `str::chars()`); the preprocessor output is modelled at the byte
level (`List Nat`) so that the byte-offset preservation properties can be
stated exactly.
-/

namespace Circomspect

/-! ### UTF-8 byte model -/

/-- The UTF-8 encoding of a unicode scalar value, as a list of byte values.
This models how a Rust `char` pushed onto a `String` contributes bytes. -/
def utf8Bytes (c : Char) : List Nat :=
  let v := c.toNat
  if v < 0x80 then [v]
  else if v < 0x800 then
    [0xC0 ||| (v >>> 6), 0x80 ||| (v &&& 0x3F)]
  else if v < 0x10000 then
    [0xE0 ||| (v >>> 12), 0x80 ||| ((v >>> 6) &&& 0x3F), 0x80 ||| (v &&& 0x3F)]
  else
    [0xF0 ||| (v >>> 18), 0x80 ||| ((v >>> 12) &&& 0x3F),
     0x80 ||| ((v >>> 6) &&& 0x3F), 0x80 ||| (v &&& 0x3F)]

/-- Rust's `char::len_utf8`. -/
def utf8Len (c : Char) : Nat :=
  let v := c.toNat
  if v < 0x80 then 1
  else if v < 0x800 then 2
  else if v < 0x10000 then 3
  else 4

/-- The byte sequence of a Rust `&str` holding the given scalar values. -/
def strBytes (cs : List Char) : List Nat := cs.flatMap utf8Bytes

/-! ### The preprocessor (`parser_logic.rs`, `preprocess`)

The Rust function walks `expr.chars()` with a three-state machine
(`0` = code, `1` = line comment, `2` = block comment), pushing either the
original character or spaces onto the output string.  `loc` counts consumed
characters and `block_start` records where the current block comment was
opened; they only matter for the error value.  The `(0, '/')` and `(2, '*')`
arms consume a second character via `it.next()`.  The embedding below returns
the pushed bytes for the remaining input, so the output of a call is the
chunk pushed for the consumed character(s) prepended to the recursive result.
An `Except.error bs` models the `return Err(UnclosedCommentError ...)` in the
`(2, '*')` arm (the only early return in the source). -/
def preprocessAux : Nat → Nat → Nat → List Char → Except Nat (List Nat)
  | _, _, _, [] => Except.ok []
  | state, loc, bs, c0 :: it =>
    if state = 0 then
      if c0 = '/' then
        match it with
        | [] => Except.ok (utf8Bytes c0)
        | c1 :: it2 =>
          if c1 = '/' then
            (preprocessAux 1 (loc + 2) bs it2).map (fun pp => 32 :: 32 :: pp)
          else if c1 = '*' then
            (preprocessAux 2 (loc + 2) (loc + 2) it2).map (fun pp => 32 :: 32 :: pp)
          else
            (preprocessAux 0 (loc + 2) bs it2).map
              (fun pp => utf8Bytes c0 ++ (utf8Bytes c1 ++ pp))
      else
        (preprocessAux 0 (loc + 1) bs it).map (fun pp => utf8Bytes c0 ++ pp)
    else if state = 1 then
      if c0 = '\n' then
        (preprocessAux 0 (loc + 1) bs it).map (fun pp => utf8Bytes c0 ++ pp)
      else
        (preprocessAux 1 (loc + 1) bs it).map
          (fun pp => List.replicate (utf8Len c0) 32 ++ pp)
    else if state = 2 then
      if c0 = '*' then
        match it with
        | [] => Except.error bs
        | c1 :: it2 =>
          if c1 = '/' then
            (preprocessAux 0 (loc + 2) bs it2).map (fun pp => 32 :: 32 :: pp)
          else
            (preprocessAux 2 (loc + 2) bs it2).map
              (fun pp => 32 :: (List.replicate (utf8Len c1) 32 ++ pp))
      else
        (preprocessAux 2 (loc + 1) bs it).map
          (fun pp => List.replicate (utf8Len c0) 32 ++ pp)
    else
      (preprocessAux state (loc + 1) bs it).map
        (fun pp => List.replicate (utf8Len c0) 32 ++ pp)

/-- `preprocess` of `parser_logic.rs`: run the machine from the code state.
The `file_id` argument of the Rust function is dropped: it is only copied
into the error value.  The error payload is the recorded `block_start`. -/
def preprocess (s : List Char) : Except Nat (List Nat) :=
  preprocessAux 0 0 0 s

/-! ### Byte-level relation between input and output -/

/-- Pointwise relation between an input byte list and an output byte list:
same length, and every output byte equals the input byte at the same offset
or is an ASCII space (`0x20`). -/
def ByteEquiv : List Nat → List Nat → Prop
  | [], [] => True
  | a :: as_, b :: bs_ => (b = a ∨ b = 32) ∧ ByteEquiv as_ bs_
  | _, _ => False

/-! ### Comment-state tagging for the newline-preservation property

`tagStates st cs` assigns to every input character the machine state in which
the `preprocess` loop consumes it (a character consumed by the two-character
lookahead of the `(0, '/')` or `(2, '*')` arm gets that arm's state).  It
mirrors the branch structure of `preprocessAux` exactly, dropping the output
and error bookkeeping.  A character tagged `1` lies in a line comment, one
tagged `2` in a block comment. -/
def tagStates : Nat → List Char → List Nat
  | _, [] => []
  | state, c0 :: it =>
    if state = 0 then
      if c0 = '/' then
        match it with
        | [] => [0]
        | c1 :: it2 =>
          if c1 = '/' then 0 :: 0 :: tagStates 1 it2
          else if c1 = '*' then 0 :: 0 :: tagStates 2 it2
          else 0 :: 0 :: tagStates 0 it2
      else 0 :: tagStates 0 it
    else if state = 1 then
      if c0 = '\n' then 1 :: tagStates 0 it
      else 1 :: tagStates 1 it
    else if state = 2 then
      if c0 = '*' then
        match it with
        | [] => [2]
        | c1 :: it2 =>
          if c1 = '/' then 2 :: 2 :: tagStates 0 it2
          else 2 :: 2 :: tagStates 2 it2
      else 2 :: tagStates 2 it
    else state :: tagStates state it

/-- The total UTF-8 byte length of a character list. -/
def charsByteLen (cs : List Char) : Nat := (cs.map utf8Len).sum

/-- The byte offset at which the `j`-th character of `cs` starts. -/
def byteOff (cs : List Char) (j : Nat) : Nat := charsByteLen (cs.take j)

/-- Positional fact relative to the comment-state tags: every input character
that carries tag `tv` and is a line feed produces the byte `ob` at that
character's original byte offset of the output. -/
def TagNL (tv ob : Nat) (tags : List Nat) (cs : List Char) (out : List Nat) : Prop :=
  ∀ j : Nat, tags[j]? = some tv → cs[j]? = some '\n' → out[byteOff cs j]? = some ob

/-! ### IR data model for the side-effect analysis

`side_effect_analysis.rs` is among the analysed sources, but the CFG/SSA
substrate, the taint analysis and the constraint analysis it calls are not;
those parts are modelled from the spec (sections 3, 4.2, 4.3 and 4.4). -/

/-- Modelled from the spec: the source metadata attached to a variable use
or declaration (the file id and byte range of `program_structure`'s
metadata, which is not among the analysed sources). -/
structure SourceMeta where
  fileId : Option Nat
  start : Nat
  stop : Nat
deriving DecidableEq

/-- Modelled from the spec: a `VariableUse` of the variable-metadata
contract: a name together with its source metadata. -/
structure VariableUse where
  name : String
  meta : SourceMeta
deriving DecidableEq

/-- Signal kinds (`SignalType`). -/
inductive SignalKind
  | input
  | output
  | intermediate
deriving DecidableEq

/-- Variable kinds (`VariableType`): ordinary variable, signal or component. -/
inductive VarKind
  | var
  | signal (kind : SignalKind)
  | component
deriving DecidableEq

/-- Modelled from the spec: a `Declaration` of the IR: name, kind, dimension
expressions and source metadata.  Dimension expressions are abstracted to
their rendered text, which is all the reports use of them. -/
structure Decl where
  name : String
  kind : VarKind
  dims : List String
  meta : SourceMeta
deriving DecidableEq

/-- Statement kinds of the reduced IR statement language (spec section 3). -/
inductive StmtKind
  | declaration
  | substitution
  | constraintEquality
  | ret
  | assert
  | ifThenElse
  | whileLoop
  | logCall
deriving DecidableEq

/-- Modelled from the spec: an IR statement as seen through the
variable-metadata contract (spec section 4.2): its kind, the variable it
writes (the substitution target, or the declared variable for a
declaration), and the variable uses it reads.  Expressions are abstracted
away: the analyses only consume `variables_read`. -/
structure Stmt where
  kind : StmtKind
  target : Option VariableUse
  reads : List VariableUse
deriving DecidableEq

/-- Modelled from the spec: the CFG contract used by the side-effect
analysis: the construct's name, its parameters, the declarations map
(an association list keyed by variable name) and the basic blocks. -/
structure Cfg where
  name : String
  paramUses : List VariableUse
  declarations : List (String × Decl)
  blocks : List (List Stmt)
deriving DecidableEq

/-- `cfg.parameters()`: the parameter names. -/
def Cfg.parameters (cfg : Cfg) : List String := cfg.paramUses.map VariableUse.name

/-- Step 2 of `run_side_effect_analysis` (lines 222-225): the union over all
basic blocks of the names read.  Sets are modelled as lists queried with
`contains`. -/
def variablesRead (cfg : Cfg) : List String :=
  cfg.blocks.flatMap fun b => b.flatMap fun s => s.reads.map VariableUse.name

/-! ### Taint analysis, modelled from the spec (section 4.3)

`program_analysis/src/taint_analysis.rs` is not among the analysed sources. -/

/-- Modelled from the spec: the taint graph's directed edges.  Each
assignment `x ← e` contributes an edge `y → x` for every `y` read by `e`,
and the variables read by a declaration's dimension expressions taint the
declared variable. -/
def taintEdges (cfg : Cfg) : List (String × String) :=
  cfg.blocks.flatMap fun b =>
    b.flatMap fun s =>
      match s.kind, s.target with
      | StmtKind.substitution, some t => s.reads.map fun u => (u.name, t.name)
      | StmtKind.declaration, some t => s.reads.map fun u => (u.name, t.name)
      | _, _ => []

/-- Direct successors of a node in an edge list. -/
def succs (edges : List (String × String)) (x : String) : List String :=
  (edges.filter fun e => e.1 == x).map Prod.snd

/-- Fuel-bounded saturation of a node list under direct successors.  Fuel
`edges.length + 1` reaches the fixpoint: a round that makes progress adds at
least one node, and only edge targets are ever added. -/
def reachAux (edges : List (String × String)) : Nat → List String → List String
  | 0, acc => acc
  | n + 1, acc =>
    let next := ((acc.flatMap (succs edges)).filter fun y => !(acc.contains y)).eraseDups
    match next with
    | [] => acc
    | _ => reachAux edges n (acc ++ next)

/-- The nodes reachable from `x` through at least one edge. -/
def reachable (edges : List (String × String)) (x : String) : List String :=
  reachAux edges (edges.length + 1) (succs edges x).eraseDups

/-- Modelled from the spec: `multi_step_taint` — the transitive closure of
the direct taint successors of a name, including the name itself exactly
when it has at least one outgoing edge. -/
def multiStepTaint (edges : List (String × String)) (x : String) : List String :=
  let r := reachable edges x
  if r.isEmpty then [] else if r.contains x then r else x :: r

/-- Modelled from the spec: `taints_any(name, set)` holds iff
`multi_step_taint(name)` meets the set. -/
def taintsAny (edges : List (String × String)) (x : String) (xs : List String) : Bool :=
  (multiStepTaint edges x).any fun y => xs.contains y

/-- Modelled from the spec: `taint_analysis.definitions()` — every SSA
definition site: the construct's parameters and the substitution targets. -/
def definitions (cfg : Cfg) : List VariableUse :=
  cfg.paramUses ++
    cfg.blocks.flatMap fun b =>
      b.flatMap fun s =>
        match s.kind, s.target with
        | StmtKind.substitution, some t => [t]
        | _, _ => []

/-! ### Constraint analysis, modelled from the spec (section 4.4)

`program_analysis/src/constraint_analysis.rs` is not among the analysed
sources. -/

/-- Modelled from the spec: the undirected constraint graph as an ordered
edge list: for each `ConstraintEquality` statement with read set `R`, every
ordered pair of distinct members of `R` is an edge (this already contains
both directions of each undirected edge). -/
def constraintEdges (cfg : Cfg) : List (String × String) :=
  cfg.blocks.flatMap fun b =>
    b.flatMap fun s =>
      if s.kind = StmtKind.constraintEquality then
        let r := (s.reads.map VariableUse.name).eraseDups
        r.flatMap fun u => ((r.filter fun v => !(v == u)).map fun v => (u, v))
      else []

/-- Modelled from the spec: `constrained_variables()` — every name read by
at least one `ConstraintEquality` statement. -/
def constrainedVariables (cfg : Cfg) : List String :=
  cfg.blocks.flatMap fun b =>
    b.flatMap fun s =>
      if s.kind = StmtKind.constraintEquality then s.reads.map VariableUse.name
      else []

/-- Modelled from the spec: `multi_step_constraint` — the transitive
neighborhood of a name in the constraint graph; the empty set when the name
has no edges at all. -/
def multiStepConstraint (cfg : Cfg) (x : String) : List String :=
  reachable (constraintEdges cfg) x

/-! ### Reports

`error_definition.rs` is not among the analysed sources; `Report` is
modelled from the spec's section-6 report shape.  The `subject` field is a
ghost field recording which variable a warning is about; the Rust code only
embeds the name in the message text. -/

inductive Severity
  | warning
  | error
deriving DecidableEq

inductive ReportCode
  | unusedVariableValue
  | unusedParameterValue
  | variableWithoutSideEffect
  | unconstrainedSignal
deriving DecidableEq

structure ReportLabel where
  fileId : Nat
  start : Nat
  stop : Nat
  message : String
deriving DecidableEq

structure Report where
  severity : Severity
  code : ReportCode
  message : String
  subject : String
  primary : List ReportLabel
  secondary : List ReportLabel
deriving DecidableEq

/-- Model of `report.add_primary(...)` guarded by `if let Some(file_id)`:
one primary label when the location has a file id, none otherwise. -/
def primaryFrom (m : SourceMeta) (msg : String) : List ReportLabel :=
  match m.fileId with
  | some fid => [{ fileId := fid, start := m.start, stop := m.stop, message := msg }]
  | none => []

/-- `dimensions_to_string` (lines 407-414). -/
def dimensionsToString (dims : List String) : String :=
  dims.foldl (fun acc d => acc ++ "[" ++ d ++ "]") ""

/-- `build_unused_variable` / `UnusedVariableWarning::into_report`. -/
def buildUnusedVariable (d : VariableUse) : Report :=
  { severity := Severity.warning,
    code := ReportCode.unusedVariableValue,
    message := "The variable `" ++ d.name ++
      "` is assigned a value, but this value is never read.",
    subject := d.name,
    primary := primaryFrom d.meta "The value assigned here is never read.",
    secondary := [] }

/-- `build_unused_param` / `UnusedParameterWarning::into_report`. -/
def buildUnusedParam (functionName : String) (d : VariableUse) : Report :=
  { severity := Severity.warning,
    code := ReportCode.unusedParameterValue,
    message := "The parameter `" ++ d.name ++ "` is never read.",
    subject := d.name,
    primary := primaryFrom d.meta
      ("The parameter `" ++ d.name ++ "` is never used in `" ++ functionName ++ "`."),
    secondary := [] }

/-- `build_variable_without_side_effect` /
`VariableWithoutSideEffectsWarning::into_report`. -/
def buildVariableWithoutSideEffect (d : VariableUse) : Report :=
  { severity := Severity.warning,
    code := ReportCode.variableWithoutSideEffect,
    message := "The value assigned to `" ++ d.name ++
      "` is not used in witness or constraint generation.",
    subject := d.name,
    primary := primaryFrom d.meta
      ("The value assigned to `" ++ d.name ++
        "` here does not influence witness or constraint generation."),
    secondary := [] }

/-- `build_param_without_side_effect` /
`ParamWithoutSideEffectsWarning::into_report`. -/
def buildParamWithoutSideEffect (d : VariableUse) : Report :=
  { severity := Severity.warning,
    code := ReportCode.variableWithoutSideEffect,
    message := "The parameter `" ++ d.name ++
      "` is not used in witness or constraint generation.",
    subject := d.name,
    primary := primaryFrom d.meta
      ("The value of the parameter `" ++ d.name ++
        "` does not influence witness or constraint generation."),
    secondary := [] }

/-- `build_unused_signal` / `UnusedSignalWarning::into_report`. -/
def buildUnusedSignal (d : Decl) : Report :=
  if d.dims.isEmpty then
    { severity := Severity.warning,
      code := ReportCode.unusedVariableValue,
      message := "The signal `" ++ d.name ++ "` is not used by the template.",
      subject := d.name,
      primary := primaryFrom d.meta "This signal is unused and could be removed.",
      secondary := [] }
  else
    { severity := Severity.warning,
      code := ReportCode.unusedVariableValue,
      message := "The signals `" ++ d.name ++ dimensionsToString d.dims ++
        "` are not used by the template.",
      subject := d.name,
      primary := primaryFrom d.meta "These signals are unused and could be removed.",
      secondary := [] }

/-- `build_unconstrained_signal` / `UnconstrainedSignalWarning::into_report`. -/
def buildUnconstrainedSignal (d : Decl) : Report :=
  if d.dims.isEmpty then
    { severity := Severity.warning,
      code := ReportCode.unconstrainedSignal,
      message := "The signal `" ++ d.name ++ "` is not constrained by the template.",
      subject := d.name,
      primary := primaryFrom d.meta "This signal does not occur in a constraint.",
      secondary := [] }
  else
    { severity := Severity.warning,
      code := ReportCode.unconstrainedSignal,
      message := "The signals `" ++ d.name ++ dimensionsToString d.dims ++
        "` are not constrained by the template.",
      subject := d.name,
      primary := primaryFrom d.meta "These signals do not occur in a constraint.",
      secondary := [] }

/-! ### The side-effect analysis orchestrator (`run_side_effect_analysis`) -/

/-- The signal declarations (`signal_decls`, lines 240-250), as
(name, declaration) pairs. -/
def signalDecls (cfg : Cfg) : List (String × Decl) :=
  cfg.declarations.filter fun p =>
    match p.2.kind with
    | VarKind.signal _ => true
    | _ => false

/-- The input and output signal names (`exported_signals`, lines 251-264). -/
def exportedSignals (cfg : Cfg) : List String :=
  ((signalDecls cfg).filter fun p =>
    match p.2.kind with
    | VarKind.signal SignalKind.input => true
    | VarKind.signal SignalKind.output => true
    | _ => false).map Prod.fst

/-- The names tainted by the input and output signals (`exported_sinks`,
lines 267-271). -/
def exportedTaint (cfg : Cfg) : List String :=
  (exportedSignals cfg).flatMap fun s => multiStepTaint (taintEdges cfg) s

/-- `HashSet::insert` on a list-modelled set. -/
def listInsert (x : String) (l : List String) : List String :=
  if l.contains x then l else x :: l

/-- The constraint step of the sink computation (lines 274-285): for each
name in the taint closure of the exported signals take its constraint
neighborhood (`result`), inserting the name itself when the neighborhood is
non-empty. -/
def constraintSinks (cfg : Cfg) : List String :=
  (exportedTaint cfg).flatMap fun source =>
    if (multiStepConstraint cfg source).isEmpty then multiStepConstraint cfg source
    else listInsert source (multiStepConstraint cfg source)

/-- The statement step of the sink computation (lines 292-306): the
variables read by `Declaration`, `Return`, `Assert` and `IfThenElse`
statements. -/
def stmtSinks (cfg : Cfg) : List String :=
  cfg.blocks.flatMap fun b =>
    b.flatMap fun s =>
      match s.kind with
      | StmtKind.declaration => s.reads.map VariableUse.name
      | StmtKind.ret => s.reads.map VariableUse.name
      | StmtKind.assert => s.reads.map VariableUse.name
      | StmtKind.ifThenElse => s.reads.map VariableUse.name
      | _ => []

/-- The sink set: the constraint sinks, extended with the exported signals
(line 288), extended with the statement sinks. -/
def sinkSet (cfg : Cfg) : List String :=
  constraintSinks cfg ++ exportedSignals cfg ++ stmtSinks cfg

/-- The variable pass (lines 313-332), iterated in the given definitions
order: report a definition as unused when its name is never read, else as
side-effect free when it taints no sink, choosing the parameter flavor of
the report by membership in the construct's parameters. -/
def varPassReports (cfg : Cfg) (defs : List VariableUse) : List Report :=
  defs.filterMap fun source =>
    if !((variablesRead cfg).contains source.name) then
      some (if cfg.parameters.contains source.name then buildUnusedParam cfg.name source
            else buildUnusedVariable source)
    else if !(taintsAny (taintEdges cfg) source.name (sinkSet cfg)) then
      some (if cfg.parameters.contains source.name then buildParamWithoutSideEffect source
            else buildVariableWithoutSideEffect source)
    else none

/-- The signal pass (lines 333-346), iterated in the given order: skip the
signals already reported by the variable pass, report unread signals as
unused, and signals whose taint reaches no constrained variable as
unconstrained. -/
def sigPassReports (cfg : Cfg) (reported : List String)
    (sigs : List (String × Decl)) : List Report :=
  sigs.filterMap fun p =>
    if reported.contains p.1 then none
    else if !((variablesRead cfg).contains p.1) then some (buildUnusedSignal p.2)
    else if !(taintsAny (taintEdges cfg) p.1 (constrainedVariables cfg)) then
      some (buildUnconstrainedSignal p.2)
    else none

/-- `run_side_effect_analysis` with explicit iteration orders for the two
hash containers whose Rust iteration order is unspecified: the definitions
sequence of the taint analysis and the `signal_decls` hash map. -/
def runSideEffectAnalysisWith (cfg : Cfg) (defs : List VariableUse)
    (sigs : List (String × Decl)) : List Report :=
  let varReports := varPassReports cfg defs
  varReports ++ sigPassReports cfg (varReports.map Report.subject) sigs

/-- `run_side_effect_analysis` with the canonical iteration orders. -/
def runSideEffectAnalysis (cfg : Cfg) : List Report :=
  runSideEffectAnalysisWith cfg (definitions cfg) (signalDecls cfg)

/-- Concrete source locations and variable uses shared by the example CFGs. -/
def metaIn : SourceMeta := { fileId := some 0, start := 30, stop := 46 }

def metaOut : SourceMeta := { fileId := some 0, start := 50, stop := 68 }

def metaAsg : SourceMeta := { fileId := some 0, start := 72, stop := 84 }

def useIn : VariableUse := { name := "in", meta := metaIn }

def useOut : VariableUse := { name := "out", meta := metaOut }

def declIn : Decl :=
  { name := "in", kind := VarKind.signal SignalKind.input, dims := [], meta := metaIn }

def declOut : Decl :=
  { name := "out", kind := VarKind.signal SignalKind.output, dims := [], meta := metaOut }

/-- A template declaring a single input signal that is never read; used to
exhibit a sink that the analysis nevertheless reports. -/
def cfgUnusedInput : Cfg :=
  { name := "T",
    paramUses := [],
    declarations := [("in", declIn)],
    blocks := [[{ kind := StmtKind.declaration, target := some useIn, reads := [] }]] }

/-- A fully live template modelling `template Copy { signal input in;
signal output out; out <== in; }` after SSA: two signal declarations, the
assignment part of `<==` reading `in` into `out`, and the constraint part
relating `out` and `in`. -/
def cfgLive : Cfg :=
  { name := "Copy",
    paramUses := [],
    declarations := [("in", declIn), ("out", declOut)],
    blocks := [[
      { kind := StmtKind.declaration, target := some useIn, reads := [] },
      { kind := StmtKind.declaration, target := some useOut, reads := [] },
      { kind := StmtKind.substitution,
        target := some { name := "out", meta := metaAsg },
        reads := [useIn] },
      { kind := StmtKind.constraintEquality, target := none,
        reads := [useOut, useIn] }]] }

/-! ### SARIF conversion (`sarif_conversion.rs`)

The `FileLibrary` and the codespan location lookup are external to the
analysed sources; they are modelled minimally: a file is a name plus a byte
size, and a location lookup succeeds exactly when the file id exists and the
byte offset lies within the file (line/column computation is the host
library's and is abstracted to the byte offset).  The `serde_sarif` builders
can fail only on missing required fields, which this code always sets; they
are modelled as total. -/

/-- Modelled from the spec: one entry of the file library. -/
structure FileEntry where
  name : String
  size : Nat
deriving DecidableEq

/-- Modelled from the spec: `files.to_storage().location(file_id, offset)`. -/
def location (files : List FileEntry) (fid : Nat) (off : Nat) : Option (Nat × Nat) :=
  match files[fid]? with
  | none => none
  | some f => if off ≤ f.size then some (off, off) else none

/-- The two data-carrying `SarifError` variants of the source; the builder
errors cannot arise in the modelled builders. -/
inductive SarifError
  | unknownLocation (fid : Nat) (start stop : Nat)
  | unknownFile (fid : Nat)
deriving DecidableEq

/-- A SARIF `Location` as assembled by the code: artifact URI, region and
label message. -/
structure SarifLocation where
  uri : String
  startLine : Nat
  startColumn : Nat
  endLine : Nat
  endColumn : Nat
  message : String
deriving DecidableEq

/-- `ToUri for FileID` (lines 161-175): `file://` plus the stored file name
with double quotes removed. -/
def toUri (files : List FileEntry) (fid : Nat) : Except SarifError String :=
  match files[fid]? with
  | none => Except.error (SarifError.unknownFile fid)
  | some f => Except.ok ("file://" ++ (f.name.replace "\"" ""))

/-- Result of converting one report label: the conversion can panic (the
`assert!(self.range.start <= self.range.end)` on line 113), fail with a
`SarifError`, or produce a location. -/
inductive LabelResult
  | panicked
  | failed (e : SarifError)
  | converted (loc : SarifLocation)
deriving DecidableEq

/-- `ToSarif for ReportLabel` (lines 100-154): build the file URI first
(propagating `UnknownFile`), then assert that the byte range is well
ordered, then resolve the start and end offsets (propagating
`UnknownLocation`). -/
def labelToSarif (files : List FileEntry) (label : ReportLabel) : LabelResult :=
  match toUri files label.fileId with
  | Except.error e => LabelResult.failed e
  | Except.ok uri =>
    if label.start ≤ label.stop then
      match location files label.fileId label.start with
      | none =>
        LabelResult.failed (SarifError.unknownLocation label.fileId label.start label.stop)
      | some s =>
        match location files label.fileId label.stop with
        | none =>
          LabelResult.failed (SarifError.unknownLocation label.fileId label.start label.stop)
        | some en =>
          LabelResult.converted
            { uri := uri, startLine := s.1, startColumn := s.2, endLine := en.1,
              endColumn := en.2, message := label.message }
    else LabelResult.panicked

/-- Result of converting a list of labels or a whole report. -/
inductive LabelsResult
  | panicked
  | failed (e : SarifError)
  | converted (locs : List SarifLocation)
deriving DecidableEq

/-- Sequential conversion of a label list, as the iterator `collect` does:
stop at the first panic or error. -/
def collectLabels (files : List FileEntry) : List ReportLabel → LabelsResult
  | [] => LabelsResult.converted []
  | l :: ls =>
    match labelToSarif files l with
    | LabelResult.panicked => LabelsResult.panicked
    | LabelResult.failed e => LabelsResult.failed e
    | LabelResult.converted loc =>
      match collectLabels files ls with
      | LabelsResult.panicked => LabelsResult.panicked
      | LabelsResult.failed e => LabelsResult.failed e
      | LabelsResult.converted locs => LabelsResult.converted (loc :: locs)

/-- Modelled from the spec: the rendered report category
(`report.get_category().to_string()`). -/
def Severity.toStr : Severity → String
  | Severity.warning => "warning"
  | Severity.error => "error"

/-- Modelled from the spec: the rendered report code
(`report.get_code().to_string()`); the spec names these codes. -/
def ReportCode.toStr : ReportCode → String
  | ReportCode.unusedVariableValue => "UnusedVariableValue"
  | ReportCode.unusedParameterValue => "UnusedParameterValue"
  | ReportCode.variableWithoutSideEffect => "VariableWithoutSideEffect"
  | ReportCode.unconstrainedSignal => "UnconstrainedSignal"

/-- A SARIF `Result` as assembled by the code. -/
structure SarifResult where
  level : String
  ruleId : String
  message : String
  locations : List SarifLocation
deriving DecidableEq

/-- Result of converting a whole report. -/
inductive ReportSarif
  | panicked
  | failed (e : SarifError)
  | converted (res : SarifResult)
deriving DecidableEq

/-- `ToSarif for Report` (lines 54-98): convert every primary label, then
every secondary label (a panic or error in any of them aborts the report),
then keep only the first location of primary-then-secondary (`take(1)`). -/
def reportToSarif (files : List FileEntry) (r : Report) : ReportSarif :=
  match collectLabels files r.primary with
  | LabelsResult.panicked => ReportSarif.panicked
  | LabelsResult.failed e => ReportSarif.failed e
  | LabelsResult.converted ps =>
    match collectLabels files r.secondary with
    | LabelsResult.panicked => ReportSarif.panicked
    | LabelsResult.failed e => ReportSarif.failed e
    | LabelsResult.converted ss =>
      ReportSarif.converted
        { level := r.severity.toStr, ruleId := r.code.toStr, message := r.message,
          locations := (ps ++ ss).take 1 }

/-- A one-file library and two labels used as concrete SARIF inputs. -/
def files0 : List FileEntry := [{ name := "main.circom", size := 100 }]

def goodLabel : ReportLabel := { fileId := 0, start := 3, stop := 7, message := "x" }

def reversedLabel : ReportLabel := { fileId := 0, start := 5, stop := 3, message := "m" }

/-! ### Theorems -/

theorem utf8Bytes_length (c : Char) : (utf8Bytes c).length = utf8Len c := by
  simp only [utf8Bytes, utf8Len]
  repeat' split
  all_goals simp

theorem byteEquiv_refl : ∀ a : List Nat, ByteEquiv a a
  | [] => trivial
  | _ :: as_ => ⟨Or.inl rfl, byteEquiv_refl as_⟩

theorem byteEquiv_spaces : ∀ a : List Nat, ByteEquiv a (List.replicate a.length 32)
  | [] => trivial
  | _ :: as_ => ⟨Or.inr rfl, byteEquiv_spaces as_⟩

theorem byteEquiv_append :
    ∀ {a₁ b₁ a₂ b₂ : List Nat}, ByteEquiv a₁ b₁ → ByteEquiv a₂ b₂ →
      ByteEquiv (a₁ ++ a₂) (b₁ ++ b₂)
  | [], [], _, _, _, h₂ => h₂
  | _ :: _, _ :: _, _, _, h₁, h₂ => ⟨h₁.1, byteEquiv_append h₁.2 h₂⟩

theorem byteEquiv_length : ∀ {a b : List Nat}, ByteEquiv a b → b.length = a.length
  | [], [], _ => rfl
  | _ :: _, _ :: _, h => by simpa using byteEquiv_length h.2

theorem byteEquiv_get :
    ∀ {a b : List Nat}, ByteEquiv a b → ∀ i : Nat, b[i]? = a[i]? ∨ b[i]? = some 32
  | [], [], _, _ => by simp
  | _ :: _, _ :: _, h, 0 => by
      rcases h.1 with h1 | h1 <;> simp [h1]
  | _ :: _, _ :: _, h, i + 1 => by
      simpa using byteEquiv_get h.2 i

theorem byteEquiv_cons_space {as_ bs_ : List Nat} (a : Nat) (h : ByteEquiv as_ bs_) :
    ByteEquiv (a :: as_) (32 :: bs_) := ⟨Or.inr rfl, h⟩

theorem byteEquiv_utf8_spaces (c : Char) {as_ bs_ : List Nat} (h : ByteEquiv as_ bs_) :
    ByteEquiv (utf8Bytes c ++ as_) (List.replicate (utf8Len c) 32 ++ bs_) := by
  rw [← utf8Bytes_length]
  exact byteEquiv_append (byteEquiv_spaces _) h

/-- Inversion for `Except.map` returning `ok`. -/
theorem except_map_ok {α β ε : Type} {f : α → β} {e : Except ε α} {b : β}
    (h : e.map f = Except.ok b) : ∃ a, e = Except.ok a ∧ b = f a := by
  cases e with
  | error _ => simp [Except.map] at h
  | ok a => exact ⟨a, rfl, by simpa [Except.map] using h.symm⟩

theorem preprocessAux_byteEquiv (state loc bs : Nat) (cs : List Char) :
    ∀ out : List Nat,
      preprocessAux state loc bs cs = Except.ok out → ByteEquiv (strBytes cs) out := by
  induction state, loc, bs, cs using preprocessAux.induct with
  | case1 st l b =>
      intro out h
      rw [preprocessAux.eq_def] at h
      simp only [Except.ok.injEq] at h
      subst h
      exact byteEquiv_refl []
  | case2 loc bs =>
      intro out h
      rw [preprocessAux.eq_def] at h
      simp only [reduceIte, Except.ok.injEq] at h
      subst h
      simp only [strBytes, List.flatMap_cons, List.flatMap_nil, List.append_nil]
      exact byteEquiv_refl _
  | case3 loc bs it2 ih =>
      intro out h
      rw [preprocessAux.eq_def] at h
      simp only [reduceIte] at h
      obtain ⟨pp, hpp, rfl⟩ := except_map_ok h
      exact byteEquiv_cons_space _ (byteEquiv_cons_space _ (ih pp hpp))
  | case4 loc bs it2 hne ih =>
      intro out h
      rw [preprocessAux.eq_def] at h
      simp only [reduceIte] at h
      obtain ⟨pp, hpp, rfl⟩ := except_map_ok h
      exact byteEquiv_cons_space _ (byteEquiv_cons_space _ (ih pp hpp))
  | case5 loc bs c1 it2 hne1 hne2 ih =>
      intro out h
      rw [preprocessAux.eq_def] at h
      simp only [reduceIte, if_neg hne1, if_neg hne2] at h
      obtain ⟨pp, hpp, rfl⟩ := except_map_ok h
      exact byteEquiv_append (byteEquiv_refl _) (byteEquiv_append (byteEquiv_refl _) (ih pp hpp))
  | case6 loc bs c0 it hne ih =>
      intro out h
      rw [preprocessAux.eq_def] at h
      simp only [reduceIte, if_neg hne] at h
      obtain ⟨pp, hpp, rfl⟩ := except_map_ok h
      exact byteEquiv_append (byteEquiv_refl _) (ih pp hpp)
  | case7 loc bs it hne ih =>
      intro out h
      rw [preprocessAux.eq_def] at h
      simp only [reduceIte] at h
      obtain ⟨pp, hpp, rfl⟩ := except_map_ok h
      exact byteEquiv_append (byteEquiv_refl _) (ih pp hpp)
  | case8 loc bs c0 it hne hne1 ih =>
      intro out h
      rw [preprocessAux.eq_def] at h
      simp only [reduceIte, if_neg hne] at h
      obtain ⟨pp, hpp, rfl⟩ := except_map_ok h
      exact byteEquiv_utf8_spaces _ (ih pp hpp)
  | case9 loc bs hne0 hne1 =>
      intro out h
      rw [preprocessAux.eq_def] at h
      simp only [reduceIte] at h
      exact Except.noConfusion h
  | case10 loc bs it2 hne0 hne1 ih =>
      intro out h
      rw [preprocessAux.eq_def] at h
      simp only [reduceIte] at h
      obtain ⟨pp, hpp, rfl⟩ := except_map_ok h
      exact byteEquiv_cons_space _ (byteEquiv_cons_space _ (ih pp hpp))
  | case11 loc bs c1 it2 hne hne0 hne1 ih =>
      intro out h
      rw [preprocessAux.eq_def] at h
      simp only [reduceIte, if_neg hne] at h
      obtain ⟨pp, hpp, rfl⟩ := except_map_ok h
      exact byteEquiv_cons_space _ (byteEquiv_utf8_spaces _ (ih pp hpp))
  | case12 loc bs c0 it hne hne0 hne1 ih =>
      intro out h
      rw [preprocessAux.eq_def] at h
      simp only [reduceIte, if_neg hne] at h
      obtain ⟨pp, hpp, rfl⟩ := except_map_ok h
      exact byteEquiv_utf8_spaces _ (ih pp hpp)
  | case13 st loc bs c0 it hne0 hne1 hne2 ih =>
      intro out h
      rw [preprocessAux.eq_def] at h
      simp only [reduceIte, if_neg hne0, if_neg hne1, if_neg hne2] at h
      obtain ⟨pp, hpp, rfl⟩ := except_map_ok h
      exact byteEquiv_utf8_spaces _ (ih pp hpp)

/-- C6: on success the preprocessor output has the same byte length as the
input, and every output byte either equals the input byte at the same offset
or is an ASCII space (`0x20`). -/
theorem preprocess_byte_preserving (s : List Char) (out : List Nat)
    (h : preprocess s = Except.ok out) :
    out.length = (strBytes s).length ∧
      ∀ i : Nat, out[i]? = (strBytes s)[i]? ∨ out[i]? = some 32 :=
  have hbe := preprocessAux_byteEquiv 0 0 0 s out h
  ⟨byteEquiv_length hbe, byteEquiv_get hbe⟩

/-- Witness for C6 at the concrete input `"/*a*/b"`. -/
theorem preprocess_byte_preserving_witness :
    ([32, 32, 32, 32, 32, 98] : List Nat).length = (strBytes ("/*a*/b".toList)).length ∧
      ∀ i : Nat,
        ([32, 32, 32, 32, 32, 98] : List Nat)[i]? = (strBytes ("/*a*/b".toList))[i]? ∨
          ([32, 32, 32, 32, 32, 98] : List Nat)[i]? = some 32 :=
  preprocess_byte_preserving ("/*a*/b".toList) [32, 32, 32, 32, 32, 98] (by rfl)

/-- C4 (code bug): reaching the end of input inside a block comment is only
detected when the final character consumed is a `*` (the `(2, '*')` arm's
lookahead).  The spec's example `"/* unterminated"` therefore returns `Ok`
with an all-space output instead of the `UnclosedComment` error; the error
(with the recorded block-comment start position `2`) is produced only on
inputs such as `"/* unterminated*"` whose last character is `*`. -/
theorem preprocess_unterminated_comment_not_an_error :
    preprocess ("/* unterminated".toList) = Except.ok (List.replicate 15 32) ∧
      preprocess ("/* unterminated*".toList) = Except.error 2 := by
  constructor <;> rfl

theorem charsByteLen_append (a b : List Char) :
    charsByteLen (a ++ b) = charsByteLen a + charsByteLen b := by
  simp [charsByteLen]

theorem byteOff_append_le (a b : List Char) (j : Nat) (h : j ≤ a.length) :
    byteOff (a ++ b) j = byteOff a j := by
  simp [byteOff, List.take_append_eq_append_take, Nat.sub_eq_zero_of_le h]

theorem byteOff_append_add (a b : List Char) (j : Nat) :
    byteOff (a ++ b) (a.length + j) = charsByteLen a + byteOff b j := by
  simp [byteOff, List.take_append_eq_append_take, charsByteLen_append,
    List.take_of_length_le (Nat.le_add_right a.length j)]

theorem strBytes_length (cs : List Char) : (strBytes cs).length = charsByteLen cs := by
  induction cs with
  | nil => rfl
  | cons c cs ih =>
      simp [strBytes, charsByteLen, utf8Bytes_length] at *
      omega

theorem tagNL_prepend {tv ob : Nat} (tg : List Nat) (cc : List Char) (cb : List Nat)
    {tags : List Nat} {cs : List Char} {out : List Nat}
    (hlen : tg.length = cc.length) (hblen : cb.length = charsByteLen cc)
    (hchunk : ∀ j : Nat, tg[j]? = some tv → cc[j]? = some '\n' →
      cb[byteOff cc j]? = some ob)
    (hrest : TagNL tv ob tags cs out) :
    TagNL tv ob (tg ++ tags) (cc ++ cs) (cb ++ out) := by
  intro j h1 h2
  by_cases hj : j < cc.length
  · rw [List.getElem?_append_left (hlen ▸ hj)] at h1
    rw [List.getElem?_append_left hj] at h2
    have hb := hchunk j h1 h2
    have hlt : byteOff cc j < cb.length := by
      by_contra hge
      rw [List.getElem?_eq_none (Nat.le_of_not_lt hge)] at hb
      exact Option.noConfusion hb
    rw [byteOff_append_le cc cs j (Nat.le_of_lt hj), List.getElem?_append_left hlt]
    exact hb
  · push_neg at hj
    obtain ⟨k, rfl⟩ := Nat.exists_eq_add_of_le hj
    rw [List.getElem?_append_right (by omega : tg.length ≤ cc.length + k), hlen,
      Nat.add_sub_cancel_left] at h1
    rw [List.getElem?_append_right (by omega : cc.length ≤ cc.length + k),
      Nat.add_sub_cancel_left] at h2
    rw [byteOff_append_add, ← hblen,
      List.getElem?_append_right (Nat.le_add_right cb.length _),
      Nat.add_sub_cancel_left]
    exact hrest k h1 h2

theorem preprocessAux_lineComment_newline (state loc bs : Nat) (cs : List Char) :
    ∀ out : List Nat, preprocessAux state loc bs cs = Except.ok out →
      TagNL 1 10 (tagStates state cs) cs out := by
  induction state, loc, bs, cs using preprocessAux.induct with
  | case1 st l b =>
      intro out h j h1 h2
      simp [tagStates] at h1
  | case2 loc bs =>
      intro out h j h1 h2
      rw [tagStates.eq_def] at h1
      simp only [reduceIte] at h1
      rcases j with _ | j <;> simp_all
  | case3 loc bs it2 ih =>
      intro out h
      rw [preprocessAux.eq_def] at h
      simp only [reduceIte] at h
      obtain ⟨pp, hpp, rfl⟩ := except_map_ok h
      rw [tagStates.eq_def]
      simp only [reduceIte]
      exact tagNL_prepend [0, 0] ['/', '/'] [32, 32] rfl (by rfl)
        (by intro j h1 h2; rcases j with _ | _ | j <;> simp_all) (ih pp hpp)
  | case4 loc bs it2 hne ih =>
      intro out h
      rw [preprocessAux.eq_def] at h
      simp only [reduceIte] at h
      obtain ⟨pp, hpp, rfl⟩ := except_map_ok h
      rw [tagStates.eq_def]
      simp only [reduceIte]
      exact tagNL_prepend [0, 0] ['/', '*'] [32, 32] rfl (by rfl)
        (by intro j h1 h2; rcases j with _ | _ | j <;> simp_all) (ih pp hpp)
  | case5 loc bs c1 it2 hne1 hne2 ih =>
      intro out h
      rw [preprocessAux.eq_def] at h
      simp only [reduceIte, if_neg hne1, if_neg hne2] at h
      obtain ⟨pp, hpp, rfl⟩ := except_map_ok h
      rw [tagStates.eq_def]
      simp only [reduceIte, if_neg hne1, if_neg hne2]
      exact tagNL_prepend [0, 0] ['/', c1] (utf8Bytes '/' ++ utf8Bytes c1) rfl
        (by simp [charsByteLen, utf8Bytes_length, show utf8Len '/' = 1 from rfl])
        (by intro j h1 h2; rcases j with _ | _ | j <;> simp_all) (ih pp hpp)
  | case6 loc bs c0 it hne ih =>
      intro out h
      rw [preprocessAux.eq_def] at h
      simp only [reduceIte, if_neg hne] at h
      obtain ⟨pp, hpp, rfl⟩ := except_map_ok h
      rw [tagStates.eq_def]
      simp only [reduceIte, if_neg hne]
      exact tagNL_prepend [0] [c0] (utf8Bytes c0) rfl
        (by simp [charsByteLen, utf8Bytes_length])
        (by intro j h1 h2; rcases j with _ | j <;> simp_all) (ih pp hpp)
  | case7 loc bs it hne ih =>
      intro out h
      rw [preprocessAux.eq_def] at h
      simp only [reduceIte] at h
      obtain ⟨pp, hpp, rfl⟩ := except_map_ok h
      rw [tagStates.eq_def]
      simp only [reduceIte]
      refine tagNL_prepend [1] ['\n'] (utf8Bytes '\n') rfl (by rfl) ?_ (ih pp hpp)
      intro j h1 h2
      rcases j with _ | j
      · rfl
      · simp_all
  | case8 loc bs c0 it hne hne1 ih =>
      intro out h
      rw [preprocessAux.eq_def] at h
      simp only [reduceIte, if_neg hne] at h
      obtain ⟨pp, hpp, rfl⟩ := except_map_ok h
      rw [tagStates.eq_def]
      simp only [reduceIte, if_neg hne]
      refine tagNL_prepend [1] [c0] (List.replicate (utf8Len c0) 32) rfl
        (by simp [charsByteLen]) ?_ (ih pp hpp)
      intro j h1 h2
      rcases j with _ | j <;> simp_all
  | case9 loc bs hne0 hne1 =>
      intro out h
      rw [preprocessAux.eq_def] at h
      simp only [reduceIte] at h
      exact Except.noConfusion h
  | case10 loc bs it2 hne0 hne1 ih =>
      intro out h
      rw [preprocessAux.eq_def] at h
      simp only [reduceIte] at h
      obtain ⟨pp, hpp, rfl⟩ := except_map_ok h
      rw [tagStates.eq_def]
      simp only [reduceIte]
      exact tagNL_prepend [2, 2] ['*', '/'] [32, 32] rfl (by rfl)
        (by intro j h1 h2; rcases j with _ | _ | j <;> simp_all) (ih pp hpp)
  | case11 loc bs c1 it2 hne hne0 hne1 ih =>
      intro out h
      rw [preprocessAux.eq_def] at h
      simp only [reduceIte, if_neg hne] at h
      obtain ⟨pp, hpp, rfl⟩ := except_map_ok h
      rw [tagStates.eq_def]
      simp only [reduceIte, if_neg hne]
      exact tagNL_prepend [2, 2] ['*', c1] (32 :: List.replicate (utf8Len c1) 32) rfl
        (by simp [charsByteLen, show utf8Len '*' = 1 from rfl]; omega)
        (by intro j h1 h2; rcases j with _ | _ | j <;> simp_all) (ih pp hpp)
  | case12 loc bs c0 it hne hne0 hne1 ih =>
      intro out h
      rw [preprocessAux.eq_def] at h
      simp only [reduceIte, if_neg hne] at h
      obtain ⟨pp, hpp, rfl⟩ := except_map_ok h
      rw [tagStates.eq_def]
      simp only [reduceIte, if_neg hne]
      exact tagNL_prepend [2] [c0] (List.replicate (utf8Len c0) 32) rfl
        (by simp [charsByteLen])
        (by intro j h1 h2; rcases j with _ | j <;> simp_all) (ih pp hpp)
  | case13 st loc bs c0 it hne0 hne1 hne2 ih =>
      intro out h
      rw [preprocessAux.eq_def] at h
      simp only [reduceIte, if_neg hne0, if_neg hne1, if_neg hne2] at h
      obtain ⟨pp, hpp, rfl⟩ := except_map_ok h
      rw [tagStates.eq_def]
      simp only [reduceIte, if_neg hne0, if_neg hne1, if_neg hne2]
      exact tagNL_prepend [st] [c0] (List.replicate (utf8Len c0) 32) rfl
        (by simp [charsByteLen])
        (by intro j h1 h2; rcases j with _ | j <;> simp_all) (ih pp hpp)

/-- C5 (amended): a line feed that lies inside a line comment is preserved at
its original byte offset of a successful output.  (A line feed inside a block
comment is instead replaced by a space; see the counterexample.) -/
theorem preprocess_line_comment_newline_preserved (s : List Char) (out : List Nat)
    (h : preprocess s = Except.ok out) :
    ∀ j : Nat, (tagStates 0 s)[j]? = some 1 → s[j]? = some '\n' →
      out[byteOff s j]? = some 10 :=
  preprocessAux_lineComment_newline 0 0 0 s out h

/-- Witness for the amended C5 at the concrete input `"//a\nb"`: the line
feed terminating the line comment (character 3, tag `1`) is preserved. -/
theorem preprocess_line_comment_newline_preserved_witness :
    ((tagStates 0 ("//a\nb".toList))[3]? = some 1) ∧
      ([32, 32, 32, 10, 98] : List Nat)[byteOff ("//a\nb".toList) 3]? = some 10 :=
  ⟨by rfl, preprocess_line_comment_newline_preserved ("//a\nb".toList)
      [32, 32, 32, 10, 98] (by rfl) 3 (by rfl) (by rfl)⟩

/-- C5 counterexample: in `"/*\n*/"` the line feed at byte offset 2 lies
inside a block comment; preprocessing succeeds but the output byte at offset
2 is a space (`0x20`), so line feeds inside block comments are not preserved. -/
theorem preprocess_block_comment_newline_lost :
    preprocess ("/*\n*/".toList) = Except.ok [32, 32, 32, 32, 32] ∧
      (strBytes ("/*\n*/".toList))[2]? = some 10 := by
  constructor <;> rfl

/-! ### Claims about the side-effect analysis -/

theorem contains_eq_mem (l : List String) (a : String) :
    l.contains a = true ↔ a ∈ l := List.elem_iff

theorem listInsert_mem (x y : String) (l : List String) :
    x ∈ listInsert y l ↔ x = y ∨ x ∈ l := by
  by_cases hc : l.contains y = true
  · rw [listInsert, if_pos hc]
    constructor
    · exact Or.inr
    · rintro (rfl | hx)
      · exact (contains_eq_mem l x).mp hc
      · exact hx
  · rw [listInsert, if_neg hc]
    exact List.mem_cons

/-- C1: a name enters the constraint step of the sink computation exactly
through some name `s` in the taint closure of the input/output signals whose
constraint neighborhood `c = multi_step_constraint(s)` is non-empty, either
as a member of `c` or as `s` itself; an `s` whose constraint neighborhood is
empty contributes nothing at this step. -/
theorem constraint_sink_step_mem (cfg : Cfg) (x : String) :
    x ∈ constraintSinks cfg ↔
      ∃ s ∈ exportedTaint cfg, multiStepConstraint cfg s ≠ [] ∧
        (x = s ∨ x ∈ multiStepConstraint cfg s) := by
  simp only [constraintSinks, List.mem_flatMap]
  constructor
  · rintro ⟨s, hs, hx⟩
    by_cases he : (multiStepConstraint cfg s).isEmpty = true
    · rw [if_pos he] at hx
      rw [List.isEmpty_iff] at he
      rw [he] at hx
      exact absurd hx (List.not_mem_nil x)
    · rw [if_neg he, listInsert_mem] at hx
      exact ⟨s, hs, by simpa [List.isEmpty_iff] using he, hx⟩
  · rintro ⟨s, hs, hne, hx⟩
    refine ⟨s, hs, ?_⟩
    rw [if_neg (by simpa [List.isEmpty_iff] using hne), listInsert_mem]
    exact hx

/-- Membership characterization of the variable pass, for any definitions
order. -/
theorem mem_varPassReports (cfg : Cfg) (defs : List VariableUse) (r : Report) :
    r ∈ varPassReports cfg defs ↔
      ∃ d ∈ defs,
        (d.name ∉ variablesRead cfg ∧
          r = if cfg.parameters.contains d.name then buildUnusedParam cfg.name d
              else buildUnusedVariable d) ∨
        (d.name ∈ variablesRead cfg ∧
          taintsAny (taintEdges cfg) d.name (sinkSet cfg) = false ∧
          r = if cfg.parameters.contains d.name then buildParamWithoutSideEffect d
              else buildVariableWithoutSideEffect d) := by
  simp only [varPassReports, List.mem_filterMap]
  constructor
  · rintro ⟨d, hd, hr⟩
    refine ⟨d, hd, ?_⟩
    by_cases h1 : (variablesRead cfg).contains d.name = true
    · have hm := (contains_eq_mem _ _).mp h1
      rw [if_neg (by simp [hm])] at hr
      by_cases h2 : taintsAny (taintEdges cfg) d.name (sinkSet cfg) = true
      · rw [if_neg (by simp [h2])] at hr
        exact absurd hr (by simp)
      · have h2f : taintsAny (taintEdges cfg) d.name (sinkSet cfg) = false := by
          cases hb : taintsAny (taintEdges cfg) d.name (sinkSet cfg)
          · rfl
          · exact absurd hb h2
        rw [if_pos (by simp [h2f])] at hr
        exact Or.inr ⟨hm, h2f, (Option.some_inj.mp hr).symm⟩
    · have hm : d.name ∉ variablesRead cfg :=
        fun hmem => h1 ((contains_eq_mem _ _).mpr hmem)
      rw [if_pos (by simp [hm])] at hr
      exact Or.inl ⟨hm, (Option.some_inj.mp hr).symm⟩
  · rintro ⟨d, hd, hcase⟩
    refine ⟨d, hd, ?_⟩
    rcases hcase with ⟨hnr, rfl⟩ | ⟨hr', ht, rfl⟩
    · rw [if_pos (by simp [hnr])]
    · rw [if_neg (by simp [hr']), if_pos (by simp [ht])]

/-- Membership characterization of the signal pass, for any reported set and
iteration order. -/
theorem mem_sigPassReports (cfg : Cfg) (reported : List String)
    (sigs : List (String × Decl)) (r : Report) :
    r ∈ sigPassReports cfg reported sigs ↔
      ∃ p ∈ sigs, reported.contains p.1 = false ∧
        ((p.1 ∉ variablesRead cfg ∧ r = buildUnusedSignal p.2) ∨
         (p.1 ∈ variablesRead cfg ∧
           taintsAny (taintEdges cfg) p.1 (constrainedVariables cfg) = false ∧
           r = buildUnconstrainedSignal p.2)) := by
  simp only [sigPassReports, List.mem_filterMap]
  constructor
  · rintro ⟨p, hp, hr⟩
    by_cases h0 : reported.contains p.1 = true
    · rw [if_pos h0] at hr
      exact absurd hr (by simp)
    · have h0f : reported.contains p.1 = false := by
        cases hb : reported.contains p.1
        · rfl
        · exact absurd hb h0
      rw [if_neg h0] at hr
      refine ⟨p, hp, h0f, ?_⟩
      by_cases h1 : (variablesRead cfg).contains p.1 = true
      · have hm := (contains_eq_mem _ _).mp h1
        rw [if_neg (by simp [hm])] at hr
        by_cases h2 : taintsAny (taintEdges cfg) p.1 (constrainedVariables cfg) = true
        · rw [if_neg (by simp [h2])] at hr
          exact absurd hr (by simp)
        · have h2f : taintsAny (taintEdges cfg) p.1 (constrainedVariables cfg) = false := by
            cases hb : taintsAny (taintEdges cfg) p.1 (constrainedVariables cfg)
            · rfl
            · exact absurd hb h2
          rw [if_pos (by simp [h2f])] at hr
          exact Or.inr ⟨hm, h2f, (Option.some_inj.mp hr).symm⟩
      · have hm : p.1 ∉ variablesRead cfg :=
          fun hmem => h1 ((contains_eq_mem _ _).mpr hmem)
        rw [if_pos (by simp [hm])] at hr
        exact Or.inl ⟨hm, (Option.some_inj.mp hr).symm⟩
  · rintro ⟨p, hp, h0f, hcase⟩
    refine ⟨p, hp, ?_⟩
    have hnm : p.1 ∉ reported := fun hm => by
      rw [(contains_eq_mem _ _).mpr hm] at h0f
      exact Bool.noConfusion h0f
    rw [if_neg (by simp [hnm])]
    rcases hcase with ⟨hnr, rfl⟩ | ⟨hr', ht, rfl⟩
    · rw [if_pos (by simp [hnr])]
    · rw [if_neg (by simp [hr']), if_pos (by simp [ht])]

/-- The subject of every report built by the variable pass is the
definition it was built from; similarly for the signal builders. -/
theorem buildUnusedSignal_subject (d : Decl) : (buildUnusedSignal d).subject = d.name := by
  unfold buildUnusedSignal
  split <;> rfl

theorem buildUnconstrainedSignal_subject (d : Decl) :
    (buildUnconstrainedSignal d).subject = d.name := by
  unfold buildUnconstrainedSignal
  split <;> rfl

/-- Any report of the variable pass has the subject of some definition in
the list that satisfies the pass's conditions; convenient corollary shapes. -/
theorem varPass_subject_mem (cfg : Cfg) (defs : List VariableUse) (r : Report)
    (hr : r ∈ varPassReports cfg defs) :
    ∃ d ∈ defs, r.subject = d.name ∧
      (d.name ∉ variablesRead cfg ∨
        taintsAny (taintEdges cfg) d.name (sinkSet cfg) = false) := by
  rcases (mem_varPassReports cfg defs r).mp hr with ⟨d, hd, hc⟩
  rcases hc with ⟨hnr, rfl⟩ | ⟨_, ht, rfl⟩
  · refine ⟨d, hd, ?_, Or.inl hnr⟩
    split <;> rfl
  · refine ⟨d, hd, ?_, Or.inr ht⟩
    split <;> rfl

theorem sigPass_subject_mem (cfg : Cfg) (reported : List String)
    (sigs : List (String × Decl)) (r : Report)
    (hr : r ∈ sigPassReports cfg reported sigs) :
    ∃ p ∈ sigs, r.subject = (p.2).name ∧ reported.contains p.1 = false ∧
      (p.1 ∉ variablesRead cfg ∨
        taintsAny (taintEdges cfg) p.1 (constrainedVariables cfg) = false) := by
  rcases (mem_sigPassReports cfg reported sigs r).mp hr with ⟨p, hp, h0, hc⟩
  rcases hc with ⟨hnr, rfl⟩ | ⟨_, ht, rfl⟩
  · exact ⟨p, hp, buildUnusedSignal_subject p.2, h0, Or.inl hnr⟩
  · exact ⟨p, hp, buildUnconstrainedSignal_subject p.2, h0, Or.inr ht⟩

/-- C2: the variable pass emits, for a definition whose name is never read,
the unused-parameter or unused-variable report according to the parameter
test; for a read definition that taints no sink, the corresponding
without-side-effect report by the same test; and nothing otherwise. -/
theorem variable_pass_report_iff (cfg : Cfg) (r : Report) :
    r ∈ varPassReports cfg (definitions cfg) ↔
      ∃ d ∈ definitions cfg,
        (d.name ∉ variablesRead cfg ∧
          r = if cfg.parameters.contains d.name then buildUnusedParam cfg.name d
              else buildUnusedVariable d) ∨
        (d.name ∈ variablesRead cfg ∧
          taintsAny (taintEdges cfg) d.name (sinkSet cfg) = false ∧
          r = if cfg.parameters.contains d.name then buildParamWithoutSideEffect d
              else buildVariableWithoutSideEffect d) :=
  mem_varPassReports cfg (definitions cfg) r

/-- C3 counterexample: in `cfgUnusedInput` the input signal `in` is a sink
(input/output signals always are), yet `run_side_effect_analysis` emits an
unused-signal report for it. -/
theorem sink_reported_counterexample :
    "in" ∈ sinkSet cfgUnusedInput ∧
      ∃ r ∈ runSideEffectAnalysis cfgUnusedInput, r.subject = "in" := by
  constructor
  · decide
  · decide

/-- C3 (amended): the computed sink set does include every input/output
signal and every variable read by a `Declaration`, `Return`, `Assert` or
`IfThenElse` statement.  A sink itself can however still be reported (an
unread input signal, for one).  The guarantee that holds is: no report is
emitted for a name that is read somewhere in the CFG, whose taint reaches a
sink, and which — when declared as a signal — also taints a constrained
variable. -/
theorem sink_members_and_no_report (cfg : Cfg) (n : String)
    (hwf : ∀ p ∈ cfg.declarations, (p.2).name = p.1)
    (hread : n ∈ variablesRead cfg)
    (htaint : taintsAny (taintEdges cfg) n (sinkSet cfg) = true)
    (hconstr : ∀ p ∈ signalDecls cfg, p.1 = n →
      taintsAny (taintEdges cfg) n (constrainedVariables cfg) = true) :
    (∀ s ∈ exportedSignals cfg, s ∈ sinkSet cfg) ∧
    (∀ b ∈ cfg.blocks, ∀ st ∈ b,
      (st.kind = StmtKind.declaration ∨ st.kind = StmtKind.ret ∨
        st.kind = StmtKind.assert ∨ st.kind = StmtKind.ifThenElse) →
      ∀ u ∈ st.reads, u.name ∈ sinkSet cfg) ∧
    (∀ r ∈ runSideEffectAnalysis cfg, r.subject ≠ n) := by
  refine ⟨?_, ?_, ?_⟩
  · intro s hs
    simp only [sinkSet, List.mem_append]
    exact Or.inl (Or.inr hs)
  · intro b hb st hst hkind u hu
    have hmem : u.name ∈ stmtSinks cfg := by
      simp only [stmtSinks, List.mem_flatMap]
      refine ⟨b, hb, st, hst, ?_⟩
      have hm : u.name ∈ st.reads.map VariableUse.name := List.mem_map.mpr ⟨u, hu, rfl⟩
      rcases hkind with h | h | h | h <;> rw [h] <;> exact hm
    simp only [sinkSet, List.mem_append]
    exact Or.inr hmem
  · intro r hr hsub
    have hr2 : r ∈ varPassReports cfg (definitions cfg) ++
        sigPassReports cfg
          ((varPassReports cfg (definitions cfg)).map Report.subject)
          (signalDecls cfg) := hr
    rcases List.mem_append.mp hr2 with hv | hs
    · rcases varPass_subject_mem cfg (definitions cfg) r hv with ⟨d, _, hsubj, hcond⟩
      have hdn : d.name = n := hsubj.symm.trans hsub
      rcases hcond with hnr | ht
      · rw [hdn] at hnr
        exact hnr hread
      · rw [hdn] at ht
        rw [ht] at htaint
        exact Bool.noConfusion htaint
    · rcases sigPass_subject_mem cfg _ (signalDecls cfg) r hs with ⟨p, hp, hsubj, _, hcond⟩
      have hp1 : (p.2).name = p.1 := hwf p (List.mem_filter.mp hp).1
      have hpn : p.1 = n := by rw [← hp1, ← hsubj, hsub]
      rcases hcond with hnr | ht
      · rw [hpn] at hnr
        exact hnr hread
      · rw [hpn] at ht
        rw [hconstr p hp hpn] at ht
        exact Bool.noConfusion ht

/-- Witness for the amended C3 at `cfgLive` and the name `in`. -/
theorem sink_members_and_no_report_witness :
    (∀ s ∈ exportedSignals cfgLive, s ∈ sinkSet cfgLive) ∧
    (∀ b ∈ cfgLive.blocks, ∀ st ∈ b,
      (st.kind = StmtKind.declaration ∨ st.kind = StmtKind.ret ∨
        st.kind = StmtKind.assert ∨ st.kind = StmtKind.ifThenElse) →
      ∀ u ∈ st.reads, u.name ∈ sinkSet cfgLive) ∧
    (∀ r ∈ runSideEffectAnalysis cfgLive, r.subject ≠ "in") :=
  sink_members_and_no_report cfgLive "in" (by decide) (by decide) (by decide) (by decide)

/-- When a `filterMap` step turns each kept element `a` into a value whose
`g`-image is `h a`, the mapped output is a sublist of the mapped input. -/
theorem filterMap_map_sublist {α β γ : Type} (l : List α) (f : α → Option β)
    (g : β → γ) (h : α → γ) (hfg : ∀ a b, f a = some b → g b = h a) :
    ((l.filterMap f).map g).Sublist (l.map h) := by
  induction l with
  | nil => simp
  | cons a t ih =>
      cases hfa : f a with
      | none =>
          simp only [List.filterMap_cons, hfa, List.map_cons]
          exact ih.cons _
      | some b =>
          simp only [List.filterMap_cons, hfa, List.map_cons]
          rw [hfg a b hfa]
          exact ih.cons₂ _

theorem varPass_subjects_sublist (cfg : Cfg) (defs : List VariableUse) :
    ((varPassReports cfg defs).map Report.subject).Sublist
      (defs.map VariableUse.name) := by
  apply filterMap_map_sublist
  intro d r h
  split at h
  · rw [Option.some_inj] at h
    subst h
    split <;> rfl
  · split at h
    · rw [Option.some_inj] at h
      subst h
      split <;> rfl
    · exact Option.noConfusion h

theorem sigPass_subjects_sublist (cfg : Cfg) (reported : List String)
    (sigs : List (String × Decl)) :
    ((sigPassReports cfg reported sigs).map Report.subject).Sublist
      (sigs.map fun p => (p.2).name) := by
  apply filterMap_map_sublist
  intro p r h
  split at h
  · exact Option.noConfusion h
  · split at h
    · rw [Option.some_inj] at h
      subst h
      exact buildUnusedSignal_subject _
    · split at h
      · rw [Option.some_inj] at h
        subst h
        exact buildUnconstrainedSignal_subject _
      · exact Option.noConfusion h

/-- C7: under the SSA and map invariants (definition names and declaration
keys are duplicate-free, and the declarations map is keyed by the declared
name), any signal name receives at most one report over the whole run: a
signal already reported by the variable pass is skipped by the signal pass. -/
theorem signal_reported_at_most_once (cfg : Cfg)
    (hdefs : ((definitions cfg).map VariableUse.name).Nodup)
    (hdecls : (cfg.declarations.map Prod.fst).Nodup)
    (hwf : ∀ p ∈ cfg.declarations, (p.2).name = p.1)
    (n : String) (d : Decl) (hsig : (n, d) ∈ signalDecls cfg) :
    ((runSideEffectAnalysis cfg).map Report.subject).count n ≤ 1 := by
  have hset : runSideEffectAnalysis cfg =
      varPassReports cfg (definitions cfg) ++
        sigPassReports cfg
          ((varPassReports cfg (definitions cfg)).map Report.subject)
          (signalDecls cfg) := rfl
  rw [hset, List.map_append, List.count_append]
  have hvnd : ((varPassReports cfg (definitions cfg)).map Report.subject).Nodup :=
    hdefs.sublist (varPass_subjects_sublist cfg (definitions cfg))
  have hsig_names : ((signalDecls cfg).map fun p => (p.2).name).Nodup := by
    have heq : ((signalDecls cfg).map fun p => (p.2).name) =
        (signalDecls cfg).map Prod.fst := by
      apply List.map_congr_left
      intro p hp
      exact hwf p (List.mem_filter.mp hp).1
    rw [heq]
    exact hdecls.sublist ((List.filter_sublist _).map Prod.fst)
  have hsnd : ((sigPassReports cfg
      ((varPassReports cfg (definitions cfg)).map Report.subject)
      (signalDecls cfg)).map Report.subject).Nodup :=
    hsig_names.sublist (sigPass_subjects_sublist cfg _ (signalDecls cfg))
  by_cases hcs : n ∈ (sigPassReports cfg
      ((varPassReports cfg (definitions cfg)).map Report.subject)
      (signalDecls cfg)).map Report.subject
  · rcases List.mem_map.mp hcs with ⟨r, hrs, hrn⟩
    rcases sigPass_subject_mem cfg _ (signalDecls cfg) r hrs with ⟨p, hp, hsubj, h0, _⟩
    have hp1 : (p.2).name = p.1 := hwf p (List.mem_filter.mp hp).1
    have hpn : p.1 = n := by rw [← hp1, ← hsubj, hrn]
    have hnv : n ∉ (varPassReports cfg (definitions cfg)).map Report.subject := by
      intro hmem
      rw [hpn, (contains_eq_mem _ _).mpr hmem] at h0
      exact Bool.noConfusion h0
    rw [List.count_eq_zero.mpr hnv]
    have := List.nodup_iff_count_le_one.mp hsnd n
    omega
  · rw [List.count_eq_zero.mpr hcs]
    have := List.nodup_iff_count_le_one.mp hvnd n
    omega

/-- Witness for C7 at `cfgLive` and the signal `out`. -/
theorem signal_reported_at_most_once_witness :
    ((runSideEffectAnalysis cfgLive).map Report.subject).count "out" ≤ 1 :=
  signal_reported_at_most_once cfgLive (by decide) (by decide) (by decide)
    "out" declOut (by decide)

/-- `contains` only depends on the underlying set of a list. -/
theorem contains_eq_of_perm {l₁ l₂ : List String} (h : l₁.Perm l₂) (x : String) :
    l₁.contains x = l₂.contains x := by
  by_cases hx : x ∈ l₁
  · rw [(contains_eq_mem _ _).mpr hx, (contains_eq_mem _ _).mpr (h.mem_iff.mp hx)]
  · have hx2 : x ∉ l₂ := fun hm => hx (h.mem_iff.mpr hm)
    cases hc1 : l₁.contains x
    · cases hc2 : l₂.contains x
      · rfl
      · exact absurd ((contains_eq_mem _ _).mp hc2) hx2
    · exact absurd ((contains_eq_mem _ _).mp hc1) hx

/-- C8: determinism up to container iteration order.  The Rust function
iterates two hash containers whose order is unspecified (the taint
analysis's definitions and the `signal_decls` map); for any two iteration
orders of each, the two runs produce permutations of each other — the same
multiset of reports (codes, messages, subjects and labels included, since
report equality is structural). -/
theorem run_reports_perm_invariant (cfg : Cfg)
    (defs₁ defs₂ : List VariableUse) (sigs₁ sigs₂ : List (String × Decl))
    (hd : defs₁.Perm defs₂) (hs : sigs₁.Perm sigs₂) :
    (runSideEffectAnalysisWith cfg defs₁ sigs₁).Perm
      (runSideEffectAnalysisWith cfg defs₂ sigs₂) := by
  have hv : (varPassReports cfg defs₁).Perm (varPassReports cfg defs₂) :=
    hd.filterMap _
  have hsub : ((varPassReports cfg defs₁).map Report.subject).Perm
      ((varPassReports cfg defs₂).map Report.subject) := hv.map _
  have hsig1 : (sigPassReports cfg ((varPassReports cfg defs₁).map Report.subject)
      sigs₁).Perm
      (sigPassReports cfg ((varPassReports cfg defs₁).map Report.subject) sigs₂) :=
    hs.filterMap _
  have hsig2 : sigPassReports cfg ((varPassReports cfg defs₁).map Report.subject)
      sigs₂ =
      sigPassReports cfg ((varPassReports cfg defs₂).map Report.subject) sigs₂ := by
    apply List.filterMap_congr
    intro p _
    rw [contains_eq_of_perm hsub p.1]
  exact hv.append (hsig2 ▸ hsig1)

/-- Witness for C8 at `cfgLive` with the signal declarations iterated in the
two possible orders. -/
theorem run_reports_perm_invariant_witness :
    (runSideEffectAnalysisWith cfgLive (definitions cfgLive)
      [("in", declIn), ("out", declOut)]).Perm
      (runSideEffectAnalysisWith cfgLive (definitions cfgLive)
        [("out", declOut), ("in", declIn)]) :=
  run_reports_perm_invariant cfgLive (definitions cfgLive) (definitions cfgLive)
    [("in", declIn), ("out", declOut)] [("out", declOut), ("in", declIn)]
    (List.Perm.refl _) (by decide)

/-- A successful label-list conversion converts the head label first. -/
theorem collectLabels_head (files : List FileEntry) (ls : List ReportLabel)
    (locs : List SarifLocation)
    (h : collectLabels files ls = LabelsResult.converted locs) :
    (ls = [] ∧ locs = []) ∨
      ∃ l t loc lt, ls = l :: t ∧ locs = loc :: lt ∧
        labelToSarif files l = LabelResult.converted loc := by
  cases ls with
  | nil =>
      left
      refine ⟨rfl, ?_⟩
      rw [collectLabels] at h
      exact (LabelsResult.converted.inj h).symm
  | cons l t =>
      right
      rw [collectLabels] at h
      cases hl : labelToSarif files l with
      | panicked => rw [hl] at h; exact LabelsResult.noConfusion h
      | failed e => rw [hl] at h; exact LabelsResult.noConfusion h
      | converted loc =>
          rw [hl] at h
          cases ht : collectLabels files t with
          | panicked => rw [ht] at h; exact LabelsResult.noConfusion h
          | failed e => rw [ht] at h; exact LabelsResult.noConfusion h
          | converted lt =>
              rw [ht] at h
              exact ⟨l, t, loc, lt, rfl, (LabelsResult.converted.inj h).symm, hl⟩

/-- C9: a successfully converted report carries exactly the first available
label — the first primary when one exists, the first secondary otherwise —
as its single SARIF location; all remaining labels are dropped. -/
theorem report_to_sarif_first_label (files : List FileEntry) (r : Report)
    (res : SarifResult) (h : reportToSarif files r = ReportSarif.converted res) :
    (r.primary ++ r.secondary = [] ∧ res.locations = []) ∨
      ∃ l rest loc, r.primary ++ r.secondary = l :: rest ∧
        labelToSarif files l = LabelResult.converted loc ∧ res.locations = [loc] := by
  rw [reportToSarif] at h
  cases hp : collectLabels files r.primary with
  | panicked => rw [hp] at h; exact ReportSarif.noConfusion h
  | failed e => rw [hp] at h; exact ReportSarif.noConfusion h
  | converted ps =>
      rw [hp] at h
      cases hs : collectLabels files r.secondary with
      | panicked => rw [hs] at h; exact ReportSarif.noConfusion h
      | failed e => rw [hs] at h; exact ReportSarif.noConfusion h
      | converted ss =>
          rw [hs] at h
          have hres := (ReportSarif.converted.inj h).symm
          rcases collectLabels_head files r.primary ps hp with
            ⟨hpe, rfl⟩ | ⟨l, t, loc, lt, hpeq, rfl, hconv⟩
          · rcases collectLabels_head files r.secondary ss hs with
              ⟨hse, rfl⟩ | ⟨l, t, loc, lt, hseq, rfl, hconv⟩
            · left
              rw [hpe, hse, hres]
              exact ⟨rfl, rfl⟩
            · right
              refine ⟨l, t, loc, by rw [hpe, hseq]; rfl, hconv, ?_⟩
              rw [hres]
              rfl
          · right
            refine ⟨l, t ++ r.secondary, loc, by rw [hpeq]; rfl, hconv, ?_⟩
            rw [hres]
            rfl

/-- Witness for C9 at a concrete report with one primary label. -/
theorem report_to_sarif_first_label_witness :
    ∃ res : SarifResult,
      reportToSarif files0 (buildUnusedVariable useIn) = ReportSarif.converted res ∧
        ((buildUnusedVariable useIn).primary ++ (buildUnusedVariable useIn).secondary = [] ∧
            res.locations = [] ∨
          ∃ l rest loc,
            (buildUnusedVariable useIn).primary ++ (buildUnusedVariable useIn).secondary =
                l :: rest ∧
              labelToSarif files0 l = LabelResult.converted loc ∧ res.locations = [loc]) :=
  ⟨_, rfl, report_to_sarif_first_label files0 (buildUnusedVariable useIn) _ rfl⟩

/-- C10 counterexample: with an empty file library and the reversed byte
range `5..3`, the conversion returns the `UnknownFile` error rather than
panicking: the file-id lookup happens before the range assert. -/
theorem label_reversed_range_no_panic :
    reversedLabel.stop < reversedLabel.start ∧
      labelToSarif [] reversedLabel = LabelResult.failed (SarifError.unknownFile 0) ∧
      labelToSarif [] reversedLabel ≠ LabelResult.panicked := by
  refine ⟨by decide, rfl, by decide⟩

/-- C10 (amended): when the file id resolves in the library, the conversion
asserts `start ≤ end` and panics on a reversed range; an unknown file id is
detected first and yields `UnknownFile` even for a reversed range; for a
well-ordered range the conversion never panics, fails only with
`UnknownFile` or `UnknownLocation`, and succeeds whenever the file id is
known and the range lies within the file. -/
theorem label_to_sarif_amended (files : List FileEntry) (label : ReportLabel) :
    (files[label.fileId]?.isSome = true → label.stop < label.start →
      labelToSarif files label = LabelResult.panicked) ∧
    (label.start ≤ label.stop →
      labelToSarif files label ≠ LabelResult.panicked ∧
      (∀ e, labelToSarif files label = LabelResult.failed e →
        e = SarifError.unknownFile label.fileId ∨
          e = SarifError.unknownLocation label.fileId label.start label.stop) ∧
      (∀ f, files[label.fileId]? = some f → label.stop ≤ f.size →
        ∃ loc, labelToSarif files label = LabelResult.converted loc)) := by
  constructor
  · intro hsome hlt
    rcases Option.isSome_iff_exists.mp hsome with ⟨f, hf⟩
    rw [labelToSarif, toUri, hf]
    dsimp only
    rw [if_neg (by omega)]
  · intro hle
    cases hf : files[label.fileId]? with
    | none =>
        rw [labelToSarif, toUri, hf]
        dsimp only
        refine ⟨nofun, ?_, ?_⟩
        · intro e he
          exact Or.inl (LabelResult.failed.inj he).symm
        · intro f hf2 _
          exact Option.noConfusion hf2
    | some f =>
        rw [labelToSarif, toUri, hf]
        dsimp only
        rw [if_pos hle, location, hf]
        dsimp only
        by_cases h1 : label.start ≤ f.size
        · rw [if_pos h1]
          dsimp only
          rw [location, hf]
          dsimp only
          by_cases h2 : label.stop ≤ f.size
          · rw [if_pos h2]
            dsimp only
            exact ⟨nofun, fun e he => LabelResult.noConfusion he, fun f2 hf2 _ => ⟨_, rfl⟩⟩
          · rw [if_neg h2]
            dsimp only
            refine ⟨nofun, ?_, ?_⟩
            · intro e he
              exact Or.inr (LabelResult.failed.inj he).symm
            · intro f2 hf2 hstop
              cases hf2
              exact absurd hstop h2
        · rw [if_neg h1]
          dsimp only
          refine ⟨nofun, ?_, ?_⟩
          · intro e he
            exact Or.inr (LabelResult.failed.inj he).symm
          · intro f2 hf2 hstop
            cases hf2
            exact absurd (Nat.le_trans hle hstop) h1

/-- Witness for the amended C10: a known file with a reversed range panics,
and a known file with a well-ordered in-range label converts. -/
theorem label_to_sarif_amended_witness :
    labelToSarif files0 reversedLabel = LabelResult.panicked ∧
      ∃ loc, labelToSarif files0 goodLabel = LabelResult.converted loc :=
  ⟨(label_to_sarif_amended files0 reversedLabel).1 (by decide) (by decide),
    ((label_to_sarif_amended files0 goodLabel).2 (by decide)).2.2
      { name := "main.circom", size := 100 } (by decide) (by decide)⟩

end Circomspect
